import Mathlib

/-!
Verification of the in-memory user CRUD store
(`internal/repository/user_repository.go`, `internal/service/user_service.go`,
`internal/domain/user.go`).

Go maps are modelled as association lists with string keys; map assignment
`m[k] = v` is `ainsert`, `delete(m, k)` is `aerase`, and map lookup
`v, ok := m[k]` is `alookup`.  Mutating repository methods, which update the
receiver in place and return an error, are modelled as functions from the
store state to a pair of the returned error (`Option Err`) and the state the
receiver is left in; every early `return err` in the Go code therefore pairs
the error with the state at the moment of the return.
-/

namespace CrudStore

/-- Decidable equality for `Except`, so that concrete runs of the fallible
operations can be checked by `decide`. -/
def exceptDecEq {ε α : Type} [DecidableEq ε] [DecidableEq α] :
    DecidableEq (Except ε α) := fun a b =>
  match a, b with
  | .error e1, .error e2 =>
    if h : e1 = e2 then isTrue (by rw [h]) else
      isFalse (fun hh => by cases hh; exact h rfl)
  | .ok x, .ok y =>
    if h : x = y then isTrue (by rw [h]) else
      isFalse (fun hh => by cases hh; exact h rfl)
  | .error _, .ok _ => isFalse (fun hh => by cases hh)
  | .ok _, .error _ => isFalse (fun hh => by cases hh)

instance {ε α : Type} [DecidableEq ε] [DecidableEq α] :
    DecidableEq (Except ε α) := exceptDecEq

/-- Lookup in an association list: Go `v, ok := m[k]`. -/
def alookup {α : Type} (l : List (String × α)) (k : String) : Option α :=
  match l with
  | [] => none
  | (k', v) :: t => if k' = k then some v else alookup t k

/-- Removal of a key: Go `delete(m, k)`. -/
def aerase {α : Type} (l : List (String × α)) (k : String) : List (String × α) :=
  match l with
  | [] => []
  | (k', v) :: t => if k' = k then aerase t k else (k', v) :: aerase t k

/-- Map assignment: Go `m[k] = v` (overwrites any previous binding). -/
def ainsert {α : Type} (l : List (String × α)) (k : String) (v : α) :
    List (String × α) :=
  (k, v) :: aerase l k

/-- The record type `domain.User` (`internal/domain/user.go`).  Go `time.Time` values are
modelled as natural-number timestamps; Go `int` as `Int`. -/
structure User where
  id : String
  name : String
  email : String
  age : Int
  createdAt : Nat
  updatedAt : Nat
deriving DecidableEq, Repr

/-- The five error values of `internal/domain` (`errors.go`). -/
inductive Err where
  | invalidName
  | invalidEmail
  | invalidAge
  | notFound
  | alreadyExists
deriving DecidableEq, Repr

/-- The store `repository.InMemoryUserRepository`: the primary map `users` from id to
record and the reverse index `emails` from normalized email to id. -/
structure Store where
  users : List (String × User)
  emails : List (String × String)
deriving DecidableEq, Repr

/-- The constructor `NewInMemoryUserRepository`. -/
def Store.empty : Store := ⟨[], []⟩

/-- Method `InMemoryUserRepository.Create`.  `user.Clone()` on a value type is the
identity, so the stored record is the argument itself. -/
def Create (s : Store) (user : User) : Option Err × Store :=
  match alookup s.users user.id with
  | some _ => (some .alreadyExists, s)
  | none =>
    match alookup s.emails user.email with
    | some _ => (some .alreadyExists, s)
    | none =>
      (none,
       ⟨ainsert s.users user.id user, ainsert s.emails user.email user.id⟩)

/-- Method `InMemoryUserRepository.GetByID` (read-only; leaves the store as is). -/
def GetByID (s : Store) (id : String) : Except Err User :=
  match alookup s.users id with
  | none => .error .notFound
  | some user => .ok user

/-- Method `InMemoryUserRepository.GetByEmail`.  The Go code reads
`user := r.users[userID]` without an existence check and then calls
`user.Clone()`; a missing entry there yields a nil pointer and the `Clone`
call panics.  That dereference is modelled by the inner `Option`:
`.ok none` is the panic outcome, `.ok (some u)` the normal return. -/
def GetByEmail (s : Store) (email : String) : Except Err (Option User) :=
  match alookup s.emails email with
  | none => .error .notFound
  | some userID => .ok (alookup s.users userID)

/-- Method `InMemoryUserRepository.GetAll` (read-only). -/
def GetAll (s : Store) : List User :=
  s.users.map (fun p => p.2)

/-- The guard in `Update`: `existingUserID, exists := r.emails[user.Email];
exists && existingUserID != user.ID`. -/
def emailTakenByOther (s : Store) (user : User) : Bool :=
  match alookup s.emails user.email with
  | some existingUserID => existingUserID ≠ user.id
  | none => false

/-- Method `InMemoryUserRepository.Update`.  In the email-change branch the Go code
runs `delete(r.emails, oldUser.Email)` then `r.emails[user.Email] = user.ID`,
and in every success branch finally `r.users[user.ID] = user.Clone()`. -/
def Update (s : Store) (user : User) : Option Err × Store :=
  match alookup s.users user.id with
  | none => (some .notFound, s)
  | some oldUser =>
    if oldUser.email = user.email then
      (none, { s with users := ainsert s.users user.id user })
    else if emailTakenByOther s user then
      (some .alreadyExists, s)
    else
      let s1 : Store :=
        { s with emails := ainsert (aerase s.emails oldUser.email)
                             user.email user.id }
      (none, { s1 with users := ainsert s1.users user.id user })

/-- Method `InMemoryUserRepository.Delete`: `delete(r.users, id)` then
`delete(r.emails, user.Email)`. -/
def Delete (s : Store) (id : String) : Option Err × Store :=
  match alookup s.users id with
  | none => (some .notFound, s)
  | some user =>
    (none, ⟨aerase s.users id, aerase s.emails user.email⟩)

/-- Method `InMemoryUserRepository.Count`: `len(r.users)`. -/
def Count (s : Store) : Nat :=
  s.users.length

/-! ### The validator (`internal/domain/user.go`) -/

/-- The whitespace set of Go `unicode.IsSpace` restricted to Latin-1 (the
space, tab, newline, vertical tab, form feed, carriage return, next line and
non-breaking space characters); higher Unicode space characters play no role
in any property below. -/
def isSpaceGo (c : Char) : Bool :=
  c = ' ' || c = '\t' || c = '\n' || c.val = 11 || c.val = 12 || c = '\r' ||
    c.val = 0x85 || c.val = 0xA0

/-- Go `strings.TrimSpace` on the character list. -/
def trimChars (l : List Char) : List Char :=
  ((l.dropWhile isSpaceGo).reverse.dropWhile isSpaceGo).reverse

/-- Go `strings.TrimSpace`. -/
def trimSpace (s : String) : String :=
  ⟨trimChars s.data⟩

/-- Go `strings.ToLower` (ASCII case mapping; `Char.toLower` lowers exactly
the ASCII uppercase letters, as Go does on ASCII input). -/
def toLowerGo (s : String) : String :=
  ⟨s.data.map Char.toLower⟩

/-- The UTF-8 byte width of one character, as Go counts it. -/
def goByteSize (c : Char) : Nat :=
  if c.val < 0x80 then 1
  else if c.val < 0x800 then 2
  else if c.val < 0x10000 then 3
  else 4

/-- Go `len` on a string: its UTF-8 byte length. -/
def goLen (s : String) : Nat :=
  (s.data.map goByteSize).sum

/-- The character class `[A-Za-z ]` of `nameRegex` (`Char.isAlpha` is exactly
ASCII `[A-Za-z]`). -/
def isNameInterior (c : Char) : Bool :=
  c.isAlpha || c = ' '

/-- The check `nameRegex.MatchString`: the anchored regex
`[A-Za-z][A-Za-z ]\x7b0,48\x7d[A-Za-z]` — length between 2 and 50, first and
last character ASCII letters, every interior character a letter or a space. -/
def matchName (l : List Char) : Bool :=
  decide (2 ≤ l.length) && decide (l.length ≤ 50) &&
    (match l with
     | [] => false
     | c :: _ => c.isAlpha) &&
    (match l.getLast? with
     | none => false
     | some c => c.isAlpha) &&
    ((l.drop 1).dropLast.all isNameInterior)

/-- The local-part character class `[a-zA-Z0-9._%+-]` of `emailRegex`. -/
def isLocalChar (c : Char) : Bool :=
  c.isAlpha || c.isDigit || c = '.' || c = '_' || c = '%' || c = '+' || c = '-'

/-- The domain character class `[a-zA-Z0-9.-]` of `emailRegex`. -/
def isDomainChar (c : Char) : Bool :=
  c.isAlpha || c.isDigit || c = '.' || c = '-'

/-- The domain side `[a-zA-Z0-9.-]+\.[a-zA-Z]\x7b2,\x7d` of `emailRegex`,
anchored at the end: some split `d ++ dot ++ tld` with `d` nonempty in the
domain class and a trailing all-letter `tld` of length at least 2. -/
def matchDom : List Char → Bool
  | [] => false
  | c :: rest =>
    isDomainChar c &&
      ((match rest with
        | '.' :: t => decide (2 ≤ t.length) && t.all Char.isAlpha
        | _ => false) ||
       matchDom rest)

/-- The check `emailRegex.MatchString`: the anchored regex
`[a-zA-Z0-9._%+-]+@[a-zA-Z0-9.-]+\.[a-zA-Z]\x7b2,\x7d`.  Neither character
class contains `@`, so the regex's `@` is the first `@` of the string. -/
def matchEmail (l : List Char) : Bool :=
  let lpart := l.takeWhile (· != '@')
  match l.dropWhile (· != '@') with
  | '@' :: dom => !lpart.isEmpty && lpart.all isLocalChar && matchDom dom
  | _ => false

/-- Method `(*User).Validate`.  The Go method normalizes `Name` (trim) and `Email`
(trim + lowercase) in place and checks name byte-length, name regex, email
regex and age in that order; the in-place normalization is modelled by
returning the normalized record on success. -/
def Validate (u : User) : Except Err User :=
  let name := trimSpace u.name
  if goLen name < 2 ∨ goLen name > 50 then .error .invalidName
  else if !matchName name.data then .error .invalidName
  else
    let email := toLowerGo (trimSpace u.email)
    if !matchEmail email.data then .error .invalidEmail
    else if u.age < 1 ∨ u.age > 150 then .error .invalidAge
    else .ok { u with name := name, email := email }

/-- Function `domain.NewUser`: builds the record with `createdAt = updatedAt = now`
(the `time.Now().UTC()` reading, supplied here as the `now` argument) and
validates it. -/
def NewUser (id name email : String) (age : Int) (now : Nat) :
    Except Err User :=
  Validate
    { id := id, name := name, email := email, age := age,
      createdAt := now, updatedAt := now }

/-! ### The service layer (`internal/service/user_service.go`)

The `uuid.New().String()` identifier and the `time.Now().UTC()` clock reading
are external collaborators and enter as the `id` and `now` arguments. -/

/-- Method `UserService.CreateUser`. -/
def CreateUser (s : Store) (id name email : String) (age : Int) (now : Nat) :
    Except Err User × Store :=
  match NewUser id name email age now with
  | .error e => (.error e, s)
  | .ok user =>
    match Create s user with
    | (some e, s') => (.error e, s')
    | (none, s') => (.ok user, s')

/-- Method `UserService.UpdateUser`: reads the existing record, builds the
replacement with the original `CreatedAt` and a fresh `UpdatedAt`, validates
it, and hands it to the repository. -/
def UpdateUser (s : Store) (id name email : String) (age : Int) (now : Nat) :
    Except Err User × Store :=
  match GetByID s id with
  | .error e => (.error e, s)
  | .ok existingUser =>
    let updatedUser : User :=
      { id := id, name := name, email := email, age := age,
        createdAt := existingUser.createdAt, updatedAt := now }
    match Validate updatedUser with
    | .error e => (.error e, s)
    | .ok validated =>
      match Update s validated with
      | (some e, s') => (.error e, s')
      | (none, s') => (.ok validated, s')

/-- Method `UserService.GetUser`. -/
def GetUser (s : Store) (id : String) : Except Err User :=
  GetByID s id

/-- Method `UserService.GetUserByEmail`. -/
def GetUserByEmail (s : Store) (email : String) : Except Err (Option User) :=
  GetByEmail s email

/-- Method `UserService.DeleteUser`. -/
def DeleteUser (s : Store) (id : String) : Option Err × Store :=
  Delete s id

/-- Method `UserService.CountUsers`. -/
def CountUsers (s : Store) : Nat :=
  Count s

/-! ### Reachable states and the two-map invariant -/

/-- One public repository call (the argument of a call). -/
inductive Op where
  | create (u : User)
  | update (u : User)
  | delete (id : String)
  | getById (id : String)
  | getByEmail (email : String)
  | getAll
  | count

/-- The state the store is left in by one public call; the read operations
take the read lock only and leave the maps untouched. -/
def stepOp (s : Store) (op : Op) : Store :=
  match op with
  | .create u => (Create s u).2
  | .update u => (Update s u).2
  | .delete id => (Delete s id).2
  | .getById _ => s
  | .getByEmail _ => s
  | .getAll => s
  | .count => s

/-- Run a sequence of public calls from a state. -/
def runOps (s : Store) : List Op → Store
  | [] => s
  | op :: rest => runOps (stepOp s op) rest

/-- A state reachable from the fresh store of
`NewInMemoryUserRepository` by public operations. -/
def Reachable (s : Store) : Prop :=
  ∃ ops : List Op, runOps Store.empty ops = s

/-- Every stored record sits under its own id as key. -/
def WellKeyed (s : Store) : Prop :=
  ∀ id u, alookup s.users id = some u → u.id = id

/-- The reverse index covers the primary map: each stored record's email is
indexed to that record's key. -/
def EmailIndexed (s : Store) : Prop :=
  ∀ id u, alookup s.users id = some u → alookup s.emails u.email = some id

/-- The reverse index is sound: each index entry points to a live record
carrying exactly that email. -/
def IndexSound (s : Store) : Prop :=
  ∀ e i, alookup s.emails e = some i →
    ∃ u, alookup s.users i = some u ∧ u.email = e

/-- The two-map consistency invariant of `InMemoryUserRepository`. -/
def Inv (s : Store) : Prop :=
  WellKeyed s ∧ EmailIndexed s ∧ IndexSound s

/-! ### The name rule as the specification words it

These definitions transcribe the specification sentence "2–50 characters
after trimming surrounding whitespace; starts and ends with a letter,
interior characters letters or single spaces only", for comparison with the
validator embedded from the source above. -/

/-- Two consecutive spaces somewhere in the list. -/
def hasDoubleSpace : List Char → Bool
  | c1 :: c2 :: rest => (c1 = ' ' && c2 = ' ') || hasDoubleSpace (c2 :: rest)
  | _ => false

/-- The specification's name rule read literally, with "single spaces only"
as: no two consecutive spaces. -/
def specNameOk (n : String) : Bool :=
  let t := trimChars n.data
  decide (2 ≤ t.length) && decide (t.length ≤ 50) &&
    (match t with
     | [] => false
     | c :: _ => c.isAlpha) &&
    (match t.getLast? with
     | none => false
     | some c => c.isAlpha) &&
    ((t.drop 1).dropLast.all isNameInterior) &&
    !(hasDoubleSpace t)

/-- The specification's name rule with the single-space restriction dropped:
2–50 characters after trimming, first and last characters letters, interior
characters letters or spaces. -/
def specNameOkAmended (n : String) : Bool :=
  let t := trimChars n.data
  decide (2 ≤ t.length) && decide (t.length ≤ 50) &&
    (match t with
     | [] => false
     | c :: _ => c.isAlpha) &&
    (match t.getLast? with
     | none => false
     | some c => c.isAlpha) &&
    ((t.drop 1).dropLast.all isNameInterior)

/-- A sample record, as in the specification's concrete scenario. -/
def sampleUser : User :=
  ⟨"id1", "John Doe", "john@example.com", 30, 0, 0⟩

/-- A second sample record with the same email and a distinct id. -/
def sampleUser2 : User :=
  ⟨"id2", "Jane", "john@example.com", 25, 0, 0⟩

/-- The store holding exactly `sampleUser`. -/
def sampleStore : Store :=
  (Create Store.empty sampleUser).2

/-! ### Association-list lemmas -/

theorem alookup_aerase {α : Type} (l : List (String × α)) (k k' : String) :
    alookup (aerase l k) k' = if k' = k then none else alookup l k' := by
  induction l with
  | nil =>
    simp only [aerase, alookup]
    by_cases h : k' = k <;> simp [h]
  | cons p t ih =>
    obtain ⟨k'', v⟩ := p
    simp only [aerase]
    by_cases h1 : k'' = k
    · rw [if_pos h1, ih]
      by_cases h2 : k' = k
      · simp [h2]
      · have : k'' ≠ k' := fun h => h2 (h1 ▸ h.symm ▸ rfl)
        simp [alookup, h2, this]
    · rw [if_neg h1]
      simp only [alookup]
      by_cases h3 : k'' = k'
      · have h2 : ¬ k' = k := fun h => h1 (h3.trans h)
        simp [h3, h2]
      · simp [h3, ih]

theorem alookup_ainsert {α : Type} (l : List (String × α)) (k k' : String)
    (v : α) :
    alookup (ainsert l k v) k' = if k' = k then some v else alookup l k' := by
  simp only [ainsert, alookup]
  by_cases h : k = k'
  · simp [h]
  · have h' : ¬ k' = k := fun hh => h hh.symm
    simp [h, h', alookup_aerase]

theorem alookup_ainsert_self {α : Type} (l : List (String × α)) (k : String)
    (v : α) : alookup (ainsert l k v) k = some v := by
  simp [alookup_ainsert]

theorem wellKeyed_ainsert (l : List (String × User)) (u : User)
    (h : ∀ id w, alookup l id = some w → w.id = id) :
    ∀ id w, alookup (ainsert l u.id u) id = some w → w.id = id := by
  intro id w hw
  rw [alookup_ainsert] at hw
  by_cases hid : id = u.id
  · rw [if_pos hid] at hw
    cases hw
    exact hid.symm
  · rw [if_neg hid] at hw
    exact h id w hw

theorem inv_create (s : Store) (u : User) (h : Inv s) : Inv (Create s u).2 := by
  obtain ⟨hwk, hfwd, hbwd⟩ := h
  cases hu : alookup s.users u.id with
  | some w => simpa [Create, hu] using ⟨hwk, hfwd, hbwd⟩
  | none =>
    cases he : alookup s.emails u.email with
    | some w => simpa [Create, hu, he] using ⟨hwk, hfwd, hbwd⟩
    | none =>
      simp only [Create, hu, he]
      refine ⟨wellKeyed_ainsert s.users u hwk, ?_, ?_⟩
      · intro id' u' h'
        rw [alookup_ainsert] at h'
        by_cases hid : id' = u.id
        · rw [if_pos hid] at h'
          cases h'
          rw [alookup_ainsert_self, hid]
        · rw [if_neg hid] at h'
          have hx := hfwd id' u' h'
          rw [alookup_ainsert]
          by_cases hem : u'.email = u.email
          · rw [hem] at hx
            rw [hx] at he
            cases he
          · rw [if_neg hem]
            exact hx
      · intro e i h'
        rw [alookup_ainsert] at h'
        by_cases hem : e = u.email
        · rw [if_pos hem] at h'
          cases h'
          exact ⟨u, alookup_ainsert_self _ _ _, hem.symm⟩
        · rw [if_neg hem] at h'
          obtain ⟨w, hw, hwe⟩ := hbwd e i h'
          by_cases hi : i = u.id
          · rw [hi, hu] at hw
            cases hw
          · refine ⟨w, ?_, hwe⟩
            rw [alookup_ainsert, if_neg hi]
            exact hw

theorem emailTakenByOther_false {s : Store} {u : User}
    (h : emailTakenByOther s u = false) :
    alookup s.emails u.email = none ∨ alookup s.emails u.email = some u.id := by
  unfold emailTakenByOther at h
  cases he : alookup s.emails u.email with
  | none => exact Or.inl rfl
  | some j =>
    rw [he] at h
    simp only [ne_eq, decide_not, Bool.not_eq_false', decide_eq_true_eq] at h
    exact Or.inr (by rw [h])

theorem inv_update (s : Store) (u : User) (h : Inv s) : Inv (Update s u).2 := by
  obtain ⟨hwk, hfwd, hbwd⟩ := h
  cases hu : alookup s.users u.id with
  | none => simpa [Update, hu] using ⟨hwk, hfwd, hbwd⟩
  | some oldUser =>
    by_cases hsame : oldUser.email = u.email
    · simp only [Update, hu, if_pos hsame]
      refine ⟨wellKeyed_ainsert s.users u hwk, ?_, ?_⟩
      · intro id' u' h'
        rw [alookup_ainsert] at h'
        by_cases hid : id' = u.id
        · rw [if_pos hid] at h'
          cases h'
          have hx := hfwd u.id oldUser hu
          rw [hsame] at hx
          rw [hid]
          exact hx
        · rw [if_neg hid] at h'
          exact hfwd id' u' h'
      · intro e i h'
        obtain ⟨w, hw, hwe⟩ := hbwd e i h'
        by_cases hi : i = u.id
        · rw [hi, hu] at hw
          cases hw
          refine ⟨u, ?_, ?_⟩
          · rw [hi, alookup_ainsert_self]
          · rw [← hsame]
            exact hwe
        · refine ⟨w, ?_, hwe⟩
          rw [alookup_ainsert, if_neg hi]
          exact hw
    · by_cases htk : emailTakenByOther s u = true
      · simpa [Update, hu, hsame, htk] using ⟨hwk, hfwd, hbwd⟩
      · rw [Bool.not_eq_true] at htk
        have htaken := emailTakenByOther_false htk
        simp only [Update, hu, if_neg hsame, htk, Bool.false_eq_true,
          if_false]
        refine ⟨wellKeyed_ainsert s.users u hwk, ?_, ?_⟩
        · intro id' u' h'
          rw [alookup_ainsert] at h'
          by_cases hid : id' = u.id
          · rw [if_pos hid] at h'
            cases h'
            rw [hid, alookup_ainsert_self]
          · rw [if_neg hid] at h'
            have hx := hfwd id' u' h'
            have hne1 : u'.email ≠ u.email := by
              intro heq
              rw [heq] at hx
              cases htaken with
              | inl h0 => rw [h0] at hx; cases hx
              | inr h0 =>
                rw [h0] at hx
                cases hx
                exact hid rfl
            have hx2 := hfwd u.id oldUser hu
            have hne2 : u'.email ≠ oldUser.email := by
              intro heq
              rw [heq, hx2] at hx
              cases hx
              exact hid rfl
            rw [alookup_ainsert, if_neg hne1, alookup_aerase, if_neg hne2]
            exact hx
        · intro e i h'
          rw [alookup_ainsert] at h'
          by_cases hem : e = u.email
          · rw [if_pos hem] at h'
            cases h'
            exact ⟨u, alookup_ainsert_self _ _ _, hem.symm⟩
          · rw [if_neg hem, alookup_aerase] at h'
            by_cases hold : e = oldUser.email
            · rw [if_pos hold] at h'
              cases h'
            · rw [if_neg hold] at h'
              obtain ⟨w, hw, hwe⟩ := hbwd e i h'
              by_cases hi : i = u.id
              · rw [hi, hu] at hw
                cases hw
                exact absurd hwe.symm hold
              · refine ⟨w, ?_, hwe⟩
                rw [alookup_ainsert, if_neg hi]
                exact hw

theorem inv_delete (s : Store) (id : String) (h : Inv s) :
    Inv (Delete s id).2 := by
  obtain ⟨hwk, hfwd, hbwd⟩ := h
  cases hu : alookup s.users id with
  | none => simpa [Delete, hu] using ⟨hwk, hfwd, hbwd⟩
  | some user =>
    simp only [Delete, hu]
    refine ⟨?_, ?_, ?_⟩
    · intro id' u' h'
      rw [alookup_aerase] at h'
      by_cases hid : id' = id
      · rw [if_pos hid] at h'
        cases h'
      · rw [if_neg hid] at h'
        exact hwk id' u' h'
    · intro id' u' h'
      rw [alookup_aerase] at h'
      by_cases hid : id' = id
      · rw [if_pos hid] at h'
        cases h'
      · rw [if_neg hid] at h'
        have hx := hfwd id' u' h'
        have hxu := hfwd id user hu
        have hne : u'.email ≠ user.email := by
          intro heq
          rw [heq, hxu] at hx
          cases hx
          exact hid rfl
        rw [alookup_aerase, if_neg hne]
        exact hx
    · intro e i h'
      rw [alookup_aerase] at h'
      by_cases hem : e = user.email
      · rw [if_pos hem] at h'
        cases h'
      · rw [if_neg hem] at h'
        obtain ⟨w, hw, hwe⟩ := hbwd e i h'
        by_cases hi : i = id
        · rw [hi, hu] at hw
          cases hw
          exact absurd hwe.symm hem
        · refine ⟨w, ?_, hwe⟩
          rw [alookup_aerase, if_neg hi]
          exact hw

theorem inv_step (s : Store) (op : Op) (h : Inv s) : Inv (stepOp s op) := by
  cases op with
  | create u => exact inv_create s u h
  | update u => exact inv_update s u h
  | delete id => exact inv_delete s id h
  | getById _ => exact h
  | getByEmail _ => exact h
  | getAll => exact h
  | count => exact h

theorem inv_runOps (ops : List Op) (s : Store) (h : Inv s) :
    Inv (runOps s ops) := by
  induction ops generalizing s with
  | nil => exact h
  | cons op rest ih => exact ih (stepOp s op) (inv_step s op h)

theorem inv_empty : Inv Store.empty := by
  refine ⟨?_, ?_, ?_⟩ <;> intro a b h <;> cases h

theorem reachable_inv (s : Store) (h : Reachable s) : Inv s := by
  obtain ⟨ops, hops⟩ := h
  exact hops ▸ inv_runOps ops Store.empty inv_empty

theorem inv_email_unique (s : Store) (h : Inv s) :
    ∀ i1 u1 i2 u2, alookup s.users i1 = some u1 →
      alookup s.users i2 = some u2 → u1.email = u2.email → i1 = i2 := by
  obtain ⟨_, hfwd, _⟩ := h
  intro i1 u1 i2 u2 h1 h2 he
  have e1 := hfwd i1 u1 h1
  have e2 := hfwd i2 u2 h2
  rw [he] at e1
  rw [e1] at e2
  cases e2
  rfl

/-! ### Glue between the byte-length check and the regex check -/

theorem isNameInterior_byte_one {c : Char} (h : isNameInterior c = true) :
    goByteSize c = 1 := by
  have hlt : c.val < (0x80 : UInt32) := by
    simp only [isNameInterior, Bool.or_eq_true, Char.isAlpha, Char.isUpper,
      Char.isLower, Bool.and_eq_true, decide_eq_true_eq] at h
    rcases h with (⟨_, h2⟩ | ⟨_, h2⟩) | h2
    · rw [UInt32.le_def, BitVec.le_def] at h2
      rw [UInt32.lt_def, BitVec.lt_def]
      norm_num at h2 ⊢
      omega
    · rw [UInt32.le_def, BitVec.le_def] at h2
      rw [UInt32.lt_def, BitVec.lt_def]
      norm_num at h2 ⊢
      omega
    · rw [h2]
      decide
  unfold goByteSize
  rw [if_pos hlt]

theorem sum_byte_one (l : List Char)
    (h : ∀ c ∈ l, isNameInterior c = true) :
    (l.map goByteSize).sum = l.length := by
  induction l with
  | nil => rfl
  | cons c t ih =>
    simp only [List.map_cons, List.sum_cons, List.length_cons]
    rw [isNameInterior_byte_one (h c (List.mem_cons_self c t)),
      ih (fun x hx => h x (List.mem_cons_of_mem c hx))]
    omega

theorem matchName_all_interior {l : List Char} (h : matchName l = true) :
    ∀ c ∈ l, isNameInterior c = true := by
  unfold matchName at h
  simp only [Bool.and_eq_true, decide_eq_true_eq] at h
  obtain ⟨⟨⟨⟨hlen2, _⟩, hhead⟩, hlast⟩, hmid⟩ := h
  cases l with
  | nil => simp at hlen2
  | cons a t =>
    have hhead' : a.isAlpha = true := hhead
    intro c hc
    rcases List.mem_cons.mp hc with rfl | hct
    · simp only [isNameInterior, hhead', Bool.true_or]
    · cases ht : t with
      | nil => rw [ht] at hct; cases hct
      | cons b t' =>
        have htne : t ≠ [] := by rw [ht]; exact List.cons_ne_nil b t'
        have hdec := List.dropLast_append_getLast htne
        rw [← hdec] at hct
        rcases List.mem_append.mp hct with hd | hl
        · have hmid' : t.dropLast.all isNameInterior = true := by
            simpa using hmid
          exact List.all_eq_true.mp hmid' c hd
        · have hc' : c = t.getLast htne := List.mem_singleton.mp hl
          have hgl : (a :: t).getLast? =
              some ((a :: t).getLast (List.cons_ne_nil a t)) :=
            List.getLast?_eq_getLast _ _
          rw [hgl] at hlast
          rw [List.getLast_cons htne] at hlast
          have hlast' : (t.getLast htne).isAlpha = true := hlast
          rw [hc']
          simp only [isNameInterior, hlast', Bool.true_or]

theorem matchName_byte_len {l : List Char} (h : matchName l = true) :
    (l.map goByteSize).sum = l.length :=
  sum_byte_one l (matchName_all_interior h)

theorem matchName_len {l : List Char} (h : matchName l = true) :
    2 ≤ l.length ∧ l.length ≤ 50 := by
  unfold matchName at h
  simp only [Bool.and_eq_true, decide_eq_true_eq] at h
  exact ⟨h.1.1.1.1, h.1.1.1.2⟩

/-! ### Shape lemmas for the validator -/

theorem validate_eq (u : User) :
    Validate u =
      if goLen (trimSpace u.name) < 2 ∨ goLen (trimSpace u.name) > 50 then
        .error .invalidName
      else if !matchName (trimSpace u.name).data then .error .invalidName
      else if !matchEmail (toLowerGo (trimSpace u.email)).data then
        .error .invalidEmail
      else if u.age < 1 ∨ u.age > 150 then .error .invalidAge
      else .ok { u with name := trimSpace u.name,
                        email := toLowerGo (trimSpace u.email) } := rfl

theorem validate_ok_fields {u v : User} (h : Validate u = .ok v) :
    v = { u with name := trimSpace u.name,
                 email := toLowerGo (trimSpace u.email) } := by
  rw [validate_eq] at h
  split at h
  · cases h
  · split at h
    · cases h
    · split at h
      · cases h
      · split at h
        · cases h
        · cases h
          rfl

theorem validate_invalidName_iff (u : User) :
    Validate u = .error Err.invalidName ↔
      matchName (trimChars u.name.data) = false := by
  have hdata : (trimSpace u.name).data = trimChars u.name.data := rfl
  rw [validate_eq]
  constructor
  · intro h
    by_cases hm : matchName (trimChars u.name.data) = true
    · exfalso
      have hlen := matchName_len hm
      have hgo : goLen (trimSpace u.name) = (trimChars u.name.data).length := by
        unfold goLen
        rw [hdata]
        exact matchName_byte_len hm
      have hcond1 : ¬ (goLen (trimSpace u.name) < 2 ∨
          goLen (trimSpace u.name) > 50) := by
        rw [hgo]
        omega
      have hcond2 : ¬ ((!matchName (trimSpace u.name).data) = true) := by
        rw [hdata, hm]
        simp
      rw [if_neg hcond1, if_neg hcond2] at h
      split at h
      · cases h
      · split at h
        · cases h
        · cases h
    · exact Bool.eq_false_iff.mpr hm
  · intro h
    by_cases h1 : goLen (trimSpace u.name) < 2 ∨ goLen (trimSpace u.name) > 50
    · rw [if_pos h1]
    · have hc : (!matchName (trimSpace u.name).data) = true := by
        rw [hdata, h]
        rfl
      rw [if_neg h1, if_pos hc]

/-! ### Error paths leave the receiver untouched -/

theorem create_error_state {s : Store} {u : User} {e : Err}
    (h : (Create s u).1 = some e) : (Create s u).2 = s := by
  cases hu : alookup s.users u.id with
  | some w => simp [Create, hu]
  | none =>
    cases he : alookup s.emails u.email with
    | some w => simp [Create, hu, he]
    | none => simp [Create, hu, he] at h

theorem create_ok {s : Store} {u : User} {s' : Store}
    (h : Create s u = (none, s')) :
    alookup s.users u.id = none ∧ alookup s.emails u.email = none ∧
      s' = ⟨ainsert s.users u.id u, ainsert s.emails u.email u.id⟩ := by
  cases hu : alookup s.users u.id with
  | some w => simp [Create, hu] at h
  | none =>
    cases he : alookup s.emails u.email with
    | some w => simp [Create, hu, he] at h
    | none =>
      simp only [Create, hu, he, Prod.mk.injEq, true_and] at h
      exact ⟨rfl, rfl, h.symm⟩

theorem update_error_state {s : Store} {u : User} {e : Err}
    (h : (Update s u).1 = some e) : (Update s u).2 = s := by
  cases hu : alookup s.users u.id with
  | none => simp [Update, hu]
  | some oldUser =>
    by_cases hsame : oldUser.email = u.email
    · simp [Update, hu, hsame] at h
    · by_cases htk : emailTakenByOther s u = true
      · simp [Update, hu, hsame, htk]
      · rw [Bool.not_eq_true] at htk
        simp [Update, hu, hsame, htk] at h

theorem delete_error_state {s : Store} {id : String} {e : Err}
    (h : (Delete s id).1 = some e) : (Delete s id).2 = s := by
  cases hu : alookup s.users id with
  | none => simp [Delete, hu]
  | some w => simp [Delete, hu] at h

theorem createUser_error_state {s : Store} {id name email : String}
    {age : Int} {now : Nat} {e : Err}
    (h : (CreateUser s id name email age now).1 = .error e) :
    (CreateUser s id name email age now).2 = s := by
  cases hn : NewUser id name email age now with
  | error e' => simp [CreateUser, hn]
  | ok user =>
    cases hc : Create s user with
    | mk oe s' =>
      cases oe with
      | none => simp [CreateUser, hn, hc] at h
      | some e' =>
        have h2 : (Create s user).2 = s := create_error_state (by rw [hc])
        rw [hc] at h2
        simp only [CreateUser, hn, hc]
        exact h2

theorem updateUser_error_state {s : Store} {id name email : String}
    {age : Int} {now : Nat} {e : Err}
    (h : (UpdateUser s id name email age now).1 = .error e) :
    (UpdateUser s id name email age now).2 = s := by
  cases hg : GetByID s id with
  | error e' => simp [UpdateUser, hg]
  | ok existingUser =>
    cases hv : Validate ⟨id, name, email, age, existingUser.createdAt, now⟩ with
    | error e' => simp [UpdateUser, hg, hv]
    | ok validated =>
      cases hup : Update s validated with
      | mk oe s' =>
        cases oe with
        | none => simp [UpdateUser, hg, hv, hup] at h
        | some e' =>
          have h2 : (Update s validated).2 = s := update_error_state (by rw [hup])
          rw [hup] at h2
          simp only [UpdateUser, hg, hv, hup]
          exact h2

/-! ### The claims -/

/-- C1: `Create` fails with `AlreadyExists` exactly when the record's id is
already present in the primary map or its email is already present in the
reverse index; on success it inserts the record into both maps; and for two
records with equal normalized email and distinct ids, at most one of the two
creates succeeds against the same store state — the second, serialized
behind the first by the store's lock, always fails with `AlreadyExists`. -/
theorem create_unique_email (s : Store) (x y : User)
    (hemail : x.email = y.email) (hid : x.id ≠ y.id) :
    (∀ u : User,
      ((Create s u).1 = some Err.alreadyExists ↔
        (alookup s.users u.id).isSome ∨ (alookup s.emails u.email).isSome) ∧
      (∀ s', Create s u = (none, s') →
        s' = ⟨ainsert s.users u.id u, ainsert s.emails u.email u.id⟩)) ∧
    (∀ s1, Create s x = (none, s1) →
      (Create s1 y).1 = some Err.alreadyExists) := by
  constructor
  · intro u
    constructor
    · constructor
      · intro h
        cases hu : alookup s.users u.id with
        | some w => exact Or.inl rfl
        | none =>
          cases he : alookup s.emails u.email with
          | some w => exact Or.inr rfl
          | none => simp [Create, hu, he] at h
      · intro h
        cases hu : alookup s.users u.id with
        | some w => simp [Create, hu]
        | none =>
          cases he : alookup s.emails u.email with
          | some w => simp [Create, hu, he]
          | none =>
            exfalso
            rcases h with h | h
            · rw [hu] at h
              cases h
            · rw [he] at h
              cases h
    · intro s' h
      exact (create_ok h).2.2
  · intro s1 h
    obtain ⟨hu, he, hs1⟩ := create_ok h
    cases hyu : alookup s1.users y.id with
    | some w => simp [Create, hyu]
    | none =>
      have hye : alookup s1.emails y.email = some x.id := by
        rw [hs1]
        show alookup (ainsert s.emails x.email x.id) y.email = some x.id
        rw [alookup_ainsert, ← hemail, if_pos rfl]
      simp [Create, hyu, hye]

/-- C1 witness: against the same empty store, creating `sampleUser` and then
`sampleUser2` (same email, distinct id) makes the second create fail with
`AlreadyExists`. -/
theorem create_unique_email_witness :
    (Create (Create Store.empty sampleUser).2 sampleUser2).1 =
      some Err.alreadyExists :=
  (create_unique_email Store.empty sampleUser sampleUser2 rfl
      (by decide)).2
    (Create Store.empty sampleUser).2 (by decide)

/-- C2: in every reachable store state the two maps are mutually consistent —
each stored record's email is indexed to its key, each index entry points to
a live record carrying exactly that email — and consequently the email of
every live record is unique across the store. -/
theorem reachable_consistent (s : Store) (hreach : Reachable s) :
    (∀ id u, alookup s.users id = some u →
      alookup s.emails u.email = some id) ∧
    (∀ e i, alookup s.emails e = some i →
      ∃ u, alookup s.users i = some u ∧ u.email = e) ∧
    (∀ i1 u1 i2 u2, alookup s.users i1 = some u1 →
      alookup s.users i2 = some u2 → u1.email = u2.email → i1 = i2) := by
  have h := reachable_inv s hreach
  exact ⟨h.2.1, h.2.2, inv_email_unique s h⟩

/-- C2 witness: in the reachable one-record store, the stored record's email
is indexed to its id. -/
theorem reachable_consistent_witness :
    alookup (runOps Store.empty [Op.create sampleUser]).emails
      "john@example.com" = some "id1" :=
  (reachable_consistent (runOps Store.empty [Op.create sampleUser])
      ⟨[Op.create sampleUser], rfl⟩).1
    "id1" sampleUser (by decide)

/-- C3: every core operation is all-or-nothing — whenever the repository's
`Create`, `Update` or `Delete`, or the service's `CreateUser` or
`UpdateUser`, returns an error, the store state is exactly what it was
before the call. -/
theorem all_or_nothing (s : Store) :
    (∀ u e, (Create s u).1 = some e → (Create s u).2 = s) ∧
    (∀ u e, (Update s u).1 = some e → (Update s u).2 = s) ∧
    (∀ id e, (Delete s id).1 = some e → (Delete s id).2 = s) ∧
    (∀ id name email age now e,
      (CreateUser s id name email age now).1 = .error e →
      (CreateUser s id name email age now).2 = s) ∧
    (∀ id name email age now e,
      (UpdateUser s id name email age now).1 = .error e →
      (UpdateUser s id name email age now).2 = s) :=
  ⟨fun _ _ h => create_error_state h,
   fun _ _ h => update_error_state h,
   fun _ _ h => delete_error_state h,
   fun _ _ _ _ _ _ h => createUser_error_state h,
   fun _ _ _ _ _ _ h => updateUser_error_state h⟩

/-- C3 witness: a `CreateUser` call with an invalid age leaves the empty
store empty. -/
theorem all_or_nothing_witness :
    (CreateUser Store.empty "id1" "John Doe" "john@example.com" 0 0).2 =
      Store.empty :=
  (all_or_nothing Store.empty).2.2.2.1 "id1" "John Doe" "john@example.com"
    0 0 Err.invalidAge (by decide)

/-- C4 counterexample: the validator accepts the name `A  B`, whose interior
holds two consecutive spaces, while the claim's rule (interior letters or
single spaces only) rejects it. -/
theorem name_double_space_counterexample :
    Validate ⟨"id1", "A  B", "a@b.co", 30, 0, 0⟩ =
        .ok ⟨"id1", "A  B", "a@b.co", 30, 0, 0⟩ ∧
      specNameOk "A  B" = false :=
  ⟨by decide, by decide⟩

/-- C4 amended: the validator trims the name and then fails with
`InvalidName` exactly when the trimmed name violates: length in [2,50],
starts and ends with a letter, interior characters letters or spaces
(consecutive spaces permitted). -/
theorem name_validation_amended (u : User) :
    Validate u = .error Err.invalidName ↔
      specNameOkAmended u.name = false := by
  have hspec : specNameOkAmended u.name =
      matchName (trimChars u.name.data) := rfl
  rw [hspec]
  exact validate_invalidName_iff u

/-- C5: `Update` fails with `NotFound` when the id is absent; when it is
present and the new email differs from the stored one, it fails with
`AlreadyExists` exactly when the new email is indexed under a different id;
and an update keeping the stored email always succeeds, replacing the
record wholesale. -/
theorem update_spec (s : Store) (u : User) :
    (alookup s.users u.id = none → Update s u = (some Err.notFound, s)) ∧
    (∀ oldUser, alookup s.users u.id = some oldUser →
      oldUser.email ≠ u.email →
      ((Update s u).1 = some Err.alreadyExists ↔
        ∃ i, alookup s.emails u.email = some i ∧ i ≠ u.id)) ∧
    (∀ oldUser, alookup s.users u.id = some oldUser →
      oldUser.email = u.email →
      Update s u = (none, { s with users := ainsert s.users u.id u })) := by
  refine ⟨?_, ?_, ?_⟩
  · intro h
    simp [Update, h]
  · intro oldUser hu hne
    constructor
    · intro h
      by_cases htk : emailTakenByOther s u = true
      · unfold emailTakenByOther at htk
        cases he : alookup s.emails u.email with
        | none =>
          rw [he] at htk
          cases htk
        | some j =>
          rw [he] at htk
          simp only [ne_eq, decide_eq_true_eq] at htk
          exact ⟨j, rfl, htk⟩
      · rw [Bool.not_eq_true] at htk
        exfalso
        simp [Update, hu, hne, htk] at h
    · rintro ⟨i, he, hine⟩
      have htk : emailTakenByOther s u = true := by
        unfold emailTakenByOther
        rw [he]
        simp [hine]
      simp [Update, hu, hne, htk]
  · intro oldUser hu hsame
    simp [Update, hu, hsame]

/-- C5 witness: updating the stored record while keeping its own current
email succeeds and replaces the record. -/
theorem update_spec_witness :
    Update sampleStore ⟨"id1", "Jane Roe", "john@example.com", 31, 0, 5⟩ =
      (none, { sampleStore with
        users := ainsert sampleStore.users "id1"
          ⟨"id1", "Jane Roe", "john@example.com", 31, 0, 5⟩ }) :=
  (update_spec sampleStore
      ⟨"id1", "Jane Roe", "john@example.com", 31, 0, 5⟩).2.2
    sampleUser (by decide) (by decide)

/-- C6: round-trip — when `CreateUser` succeeds, `GetByID` on the created
record's id returns a record equal field-for-field to the record the create
returned. -/
theorem create_roundtrip (s : Store) (id name email : String) (age : Int)
    (now : Nat) (u : User) (s' : Store)
    (h : CreateUser s id name email age now = (.ok u, s')) :
    GetByID s' u.id = .ok u := by
  cases hn : NewUser id name email age now with
  | error e => simp [CreateUser, hn] at h
  | ok user =>
    cases hc : Create s user with
    | mk oe s'' =>
      cases oe with
      | some e => simp [CreateUser, hn, hc] at h
      | none =>
        simp only [CreateUser, hn, hc, Prod.mk.injEq] at h
        obtain ⟨hu, hs⟩ := h
        cases hu
        obtain ⟨_, _, hss⟩ := create_ok hc
        rw [← hs, hss]
        simp [GetByID, alookup_ainsert_self]

/-- C6 witness: a concrete successful `CreateUser` followed by `GetByID` on
the created id returns the created record. -/
theorem create_roundtrip_witness :
    GetByID (CreateUser Store.empty "id1" "John Doe" "John@Example.com"
        30 7).2 "id1" =
      .ok ⟨"id1", "John Doe", "john@example.com", 30, 7, 7⟩ :=
  create_roundtrip Store.empty "id1" "John Doe" "John@Example.com" 30 7
    ⟨"id1", "John Doe", "john@example.com", 30, 7, 7⟩
    (CreateUser Store.empty "id1" "John Doe" "John@Example.com" 30 7).2
    (by decide)

/-- C7: for every successful service-level update of an existing record in a
reachable state, the result keeps the original id and `createdAt`, and its
`updatedAt` (the clock reading `now`, which the monotone clock guarantees is
at least the original `updatedAt`) does not decrease. -/
theorem update_immutable (s : Store) (id name email : String) (age : Int)
    (now : Nat) (u orig : User) (s' : Store)
    (hreach : Reachable s)
    (horig : alookup s.users id = some orig)
    (hclock : orig.updatedAt ≤ now)
    (h : UpdateUser s id name email age now = (.ok u, s')) :
    u.id = orig.id ∧ u.createdAt = orig.createdAt ∧
      orig.updatedAt ≤ u.updatedAt := by
  have hwk : orig.id = id := (reachable_inv s hreach).1 id orig horig
  have hget : GetByID s id = .ok orig := by
    unfold GetByID
    rw [horig]
  cases hv : Validate ⟨id, name, email, age, orig.createdAt, now⟩ with
  | error e =>
    exfalso
    simp [UpdateUser, hget, hv] at h
  | ok validated =>
    cases hup : Update s validated with
    | mk oe s'' =>
      cases oe with
      | some e => simp [UpdateUser, hget, hv, hup] at h
      | none =>
        simp only [UpdateUser, hget, hv, hup, Prod.mk.injEq] at h
        obtain ⟨hu, _⟩ := h
        cases hu
        have hf := validate_ok_fields hv
        rw [hf]
        exact ⟨hwk.symm, rfl, hclock⟩

/-- C7 witness: a concrete successful update in the reachable one-record
store keeps id and `createdAt` and does not decrease `updatedAt`. -/
theorem update_immutable_witness :
    (⟨"id1", "Jane Roe", "jane@example.com", 31, 0, 9⟩ : User).id =
        sampleUser.id ∧
      (⟨"id1", "Jane Roe", "jane@example.com", 31, 0, 9⟩ : User).createdAt =
        sampleUser.createdAt ∧
      sampleUser.updatedAt ≤
        (⟨"id1", "Jane Roe", "jane@example.com", 31, 0, 9⟩ : User).updatedAt :=
  update_immutable sampleStore "id1" "Jane Roe" "jane@example.com" 31 9
    ⟨"id1", "Jane Roe", "jane@example.com", 31, 0, 9⟩ sampleUser
    (UpdateUser sampleStore "id1" "Jane Roe" "jane@example.com" 31 9).2
    ⟨[Op.create sampleUser], rfl⟩ (by decide) (by decide) (by decide)

/-- C8: delete is not idempotent — deleting a present id succeeds and an
immediately repeated delete on the resulting state fails with `NotFound`;
deleting an absent id fails with `NotFound` and changes nothing. -/
theorem delete_non_idempotent (s : Store) (id : String) :
    (∀ u, alookup s.users id = some u →
      (Delete s id).1 = none ∧
        Delete (Delete s id).2 id = (some Err.notFound, (Delete s id).2)) ∧
    (alookup s.users id = none → Delete s id = (some Err.notFound, s)) := by
  have hgen : ∀ t : Store, alookup t.users id = none →
      Delete t id = (some Err.notFound, t) := by
    intro t ht
    simp [Delete, ht]
  refine ⟨fun u hu => ⟨by simp [Delete, hu], ?_⟩, hgen s⟩
  apply hgen
  simp only [Delete, hu]
  rw [alookup_aerase, if_pos rfl]

/-- C8 witness: deleting `"id1"` from the one-record store succeeds and the
second delete fails with `NotFound`. -/
theorem delete_non_idempotent_witness :
    (Delete sampleStore "id1").1 = none ∧
      Delete (Delete sampleStore "id1").2 "id1" =
        (some Err.notFound, (Delete sampleStore "id1").2) :=
  (delete_non_idempotent sampleStore "id1").1 sampleUser (by decide)

/-- C9: email reuse — after a successful delete of the record holding an
email, a create of a valid record with a fresh id and that same email
succeeds. -/
theorem delete_frees_email (s : Store) (id : String) (u v : User)
    (hstored : alookup s.users id = some u)
    (hemail : v.email = u.email)
    (hvalid : Validate v = .ok v)
    (hfresh : alookup (Delete s id).2.users v.id = none)
    (hother : ∀ i w, alookup s.users i = some w → w.email = u.email →
      i = id) :
    (Delete s id).1 = none ∧ (Create (Delete s id).2 v).1 = none := by
  have hst : (Delete s id).2 =
      ⟨aerase s.users id, aerase s.emails u.email⟩ := by
    simp [Delete, hstored]
  refine ⟨by simp [Delete, hstored], ?_⟩
  rw [hst] at hfresh ⊢
  have hem : alookup (aerase s.emails u.email) v.email = none := by
    rw [hemail, alookup_aerase, if_pos rfl]
  simp [Create, hfresh, hem]

/-- C9 witness: after deleting `"id1"`, creating a fresh valid record with
the freed email `john@example.com` succeeds. -/
theorem delete_frees_email_witness :
    (Delete sampleStore "id1").1 = none ∧
      (Create (Delete sampleStore "id1").2
        ⟨"id3", "Mary Jane", "john@example.com", 25, 3, 3⟩).1 = none :=
  delete_frees_email sampleStore "id1" sampleUser
    ⟨"id3", "Mary Jane", "john@example.com", 25, 3, 3⟩
    (by decide) (by decide) (by decide) (by decide)
    (by
      intro i w hw _
      have hw' : (if "id1" = i then some sampleUser else none) = some w := hw
      by_cases hi : "id1" = i
      · exact hi.symm
      · rw [if_neg hi] at hw'
        cases hw')

/-- C10: `GetByEmail` never reaches the nil dereference in a reachable
state — it returns `NotFound` or a record whose email is the queried one;
the `.ok none` outcome, which models the panic in `user.Clone()`, never
occurs. -/
theorem getByEmail_safe (s : Store) (e : String) (hreach : Reachable s) :
    GetByEmail s e = .error Err.notFound ∨
      ∃ u, GetByEmail s e = .ok (some u) ∧ u.email = e := by
  have h := reachable_inv s hreach
  cases he : alookup s.emails e with
  | none =>
    left
    simp [GetByEmail, he]
  | some i =>
    obtain ⟨u, hu, hue⟩ := h.2.2 e i he
    right
    exact ⟨u, by simp [GetByEmail, he, hu], hue⟩

/-- C10 witness: the safety statement at the reachable one-record store and
its stored email. -/
theorem getByEmail_safe_witness :
    GetByEmail sampleStore "john@example.com" = .error Err.notFound ∨
      ∃ u, GetByEmail sampleStore "john@example.com" = .ok (some u) ∧
        u.email = "john@example.com" :=
  getByEmail_safe sampleStore "john@example.com"
    ⟨[Op.create sampleUser], rfl⟩

end CrudStore
